import Mathlib

/-!
Verification development for the coordinate-tracker program (src/main.py).

The program samples webcam frames, crops a fixed region, enhances it for
OCR, and parses a numeric (X, Y, Z) triple out of the recognized text.
This file shallowly embeds the pieces of that program that the
specification talks about:

* `extract_coordinates` — the text normalizer / coordinate extractor
  (`CoordinateTracker.extract_coordinates`), including a faithful model
  of the regex scan `re.findall(r"[-+]?\d+\.?\d*", s)` and of Python
  `float()` on the token grammar.  Numeric strings are interpreted
  exactly over `ℚ`; every decimal literal the spec's examples use is
  exactly representable, so the rational model agrees with the float
  semantics on everything stated here.
* `preprocess_image` — the image enhancer (`CoordinateTracker.preprocess_image`)
  with its embedded throttled debug write; the OpenCV primitives are
  external collaborators and are modelled from the spec with explicit
  preconditions, as `Option`-returning transforms.
* the startup phase of `CoordinateTracker.start` and the per-cycle sleep
  `time.sleep(max(0.1, 0.5 - elapsed))`.

Strings are modelled as `List Char`; mutable state (the last
debug-write timestamp) is threaded explicitly; wall-clock times are `ℚ`.
-/

namespace CoordTracker

/-! ## Text normalization (src/main.py line 45) -/

/-- Embeds Python `s.replace(a, b)` for one-character `a`, `b`. -/
def replaceChar (a b : Char) (l : List Char) : List Char :=
  l.map (fun c => if c = a then b else c)

/-- Embeds Python `s.replace(a, '')` for a one-character `a`. -/
def removeChar (a : Char) (l : List Char) : List Char :=
  l.filter (fun c => !(c = a))

/-- Embeds line 45:
`text.replace(' ', '').replace('：', ':').replace(';', ':').replace('|', '').replace('I', '1').replace('O', '0')`,
the six substitutions applied left to right. -/
def cleanText (l : List Char) : List Char :=
  replaceChar 'O' '0'
    (replaceChar 'I' '1'
      (removeChar '|'
        (replaceChar ';' ':'
          (replaceChar '：' ':'
            (removeChar ' ' l)))))

/-- Embeds lines 48-49: `if ':' in clean_text: clean_text = clean_text.split(':')[-1]`,
i.e. keep only the suffix after the last colon when a colon is present. -/
def splitLastColon (l : List Char) : List Char :=
  if l.contains ':' then
    (l.reverse.takeWhile (fun c => !(c = ':'))).reverse
  else l

/-! ## The numeric-token scan (src/main.py line 52)

`re.findall(r"[-+]?\d+\.?\d*", clean_text)` scans left to right; at each
position the greedy pattern matches an optional sign, a maximal nonempty
digit run, then an optional dot followed by a maximal (possibly empty)
digit run.  On failure the scan advances one character. -/

/-- Matches `\d+\.?\d*` at the head of the input: a nonempty digit run,
optionally followed by a dot and a digit run.  Returns the matched token
and the unconsumed rest. -/
def numPart (cs : List Char) : Option (List Char × List Char) :=
  match cs with
  | [] => none
  | c :: rest =>
    if c.isDigit then
      let ds := rest.takeWhile Char.isDigit
      match rest.dropWhile Char.isDigit with
      | d :: r2 =>
        if d = '.' then
          some (c :: (ds ++ '.' :: r2.takeWhile Char.isDigit), r2.dropWhile Char.isDigit)
        else some (c :: ds, d :: r2)
      | [] => some (c :: ds, [])
    else none

/-- Matches the full pattern `[-+]?\d+\.?\d*` at the head of the input.
When a leading sign is not followed by a digit the whole attempt fails
(the regex cannot match at this position at all). -/
def matchNum (cs : List Char) : Option (List Char × List Char) :=
  match cs with
  | [] => none
  | c :: rest =>
    if c = '-' ∨ c = '+' then
      (numPart rest).map (fun p => (c :: p.1, p.2))
    else numPart cs

/-- The left-to-right scan of `re.findall`: try a match at the current
position; on success emit the token and resume after it, on failure
advance one character.  Structurally recursive on a fuel argument; each
step consumes at least one character, so fuel equal to the input length
never runs out. -/
def scanNums : ℕ → List Char → List (List Char)
  | 0, _ => []
  | _, [] => []
  | fuel + 1, c :: cs =>
    match matchNum (c :: cs) with
    | some (t, r) => t :: scanNums fuel r
    | none => scanNums fuel cs

/-- Embeds `re.findall(r"[-+]?\d+\.?\d*", clean_text)`. -/
def findNumbers (cs : List Char) : List (List Char) :=
  scanNums cs.length cs

/-! ## Python float parsing (src/main.py line 57)

`float(tok)` on the decimal fragment `[+-]? (digits [. digits*] | . digits+)`,
interpreted exactly over `ℚ`.  Inputs outside that fragment (empty string,
lone sign, lone dot, stray characters) fail, exactly as `float()` raises
`ValueError` on them. -/

/-- Numeric value of a digit run, most significant first. -/
def natOfDigits (l : List Char) : ℕ :=
  l.foldl (fun a c => 10 * a + (c.toNat - '0'.toNat)) 0

/-- Parses an unsigned decimal: `digits`, `digits.digits*`, or `.digits+`.
The value of `ip.fp` is the exact rational `(ip·10^|fp| + fp) / 10^|fp|`,
written with the kernel-computable `Rat.divInt`. -/
def parseUnsigned (cs : List Char) : Option ℚ :=
  let ip := cs.takeWhile Char.isDigit
  match cs.dropWhile Char.isDigit with
  | [] => if ip.isEmpty then none else some ((natOfDigits ip : ℕ) : ℚ)
  | '.' :: r2 =>
    let fp := r2.takeWhile Char.isDigit
    if (r2.dropWhile Char.isDigit).isEmpty then
      if ip.isEmpty && fp.isEmpty then none
      else
        some (Rat.divInt ((natOfDigits ip * 10 ^ fp.length + natOfDigits fp : ℕ) : ℤ)
          ((10 ^ fp.length : ℕ) : ℤ))
    else none
  | _ => none

/-- Embeds Python `float(tok)` on the decimal fragment: optional sign,
then an unsigned decimal. -/
def parseFloat (cs : List Char) : Option ℚ :=
  match cs with
  | [] => none
  | c :: rest =>
    if c = '-' then (parseUnsigned rest).map Rat.neg
    else if c = '+' then parseUnsigned rest
    else parseUnsigned cs

/-! ## The extractor (src/main.py lines 39-61) -/

/-- Embeds `CoordinateTracker.extract_coordinates`: normalize, anchor on
the last colon, scan for numeric tokens; with fewer than three tokens
return `none`, otherwise parse the first three as floats (the
`ValueError` branch returning `none`). -/
def extract_coordinates (text : List Char) : Option (ℚ × ℚ × ℚ) :=
  let ct := splitLastColon (cleanText text)
  match findNumbers ct with
  | a :: b :: c :: _ =>
    match parseFloat a, parseFloat b, parseFloat c with
    | some x, some y, some z => some (x, y, z)
    | _, _, _ => none
  | _ => none

/-! ## Image model and the enhancer (src/main.py lines 63-95)

The OpenCV primitives are external collaborators (the spec excludes
them from the core); they are modelled from the spec's §4.1 step
descriptions as `Option`-returning transforms whose preconditions are
the ones OpenCV enforces.  Pixel access is a total function; dimensions
and channel counts are tracked exactly. -/

/-- A matrix of pixels: `pix r c k` is the intensity of channel `k` at
row `r`, column `c`. -/
structure Mat where
  rows : ℕ
  cols : ℕ
  channels : ℕ
  pix : ℕ → ℕ → ℕ → ℕ

/-- Embeds numpy `.size`: the total number of scalar entries. -/
def Mat.size (m : Mat) : ℕ := m.rows * m.cols * m.channels

/-- Clamp an index into `[0, n-1]` (border replication). -/
def clampIdx (n i : ℕ) : ℕ := min i (n - 1)

/-- Modelled from the spec: step 1 of §4.1, `cv2.cvtColor(roi, COLOR_BGR2GRAY)`
converts a 3-channel image to single-channel luminance (BT.601 weights on
B, G, R); it requires a 3-channel input. -/
def cvtColorGray (m : Mat) : Option Mat :=
  if m.channels = 3 then
    some { rows := m.rows, cols := m.cols, channels := 1,
           pix := fun r c _ => (114 * m.pix r c 0 + 587 * m.pix r c 1 + 299 * m.pix r c 2) / 1000 }
  else none

/-- Modelled from the spec: step 2 of §4.1, `cv2.resize(gray, None, fx=2.5, fy=2.5,
interpolation=INTER_CUBIC)` upscales by 2.5 in both axes; it requires a
nonempty input.  The cubic interpolation weights are abstracted to
source-pixel sampling; the 2.5x output geometry is exact. -/
def resize25 (m : Mat) : Option Mat :=
  if 0 < m.rows ∧ 0 < m.cols then
    some { rows := 5 * m.rows / 2, cols := 5 * m.cols / 2, channels := m.channels,
           pix := fun r c k => m.pix (2 * r / 5) (2 * c / 5) k }
  else none

/-- Insert into a sorted list, used for the median computation. -/
def insertSorted (x : ℕ) : List ℕ → List ℕ
  | [] => [x]
  | y :: ys => if x ≤ y then x :: y :: ys else y :: insertSorted x ys

/-- Insertion sort on naturals. -/
def sortNat (l : List ℕ) : List ℕ := l.foldr insertSorted []

/-- The 3x3 neighborhood of a pixel, borders replicated. -/
def window3 (m : Mat) (r c : ℕ) : List ℕ :=
  [m.pix (clampIdx m.rows (r - 1)) (clampIdx m.cols (c - 1)) 0,
   m.pix (clampIdx m.rows (r - 1)) (clampIdx m.cols c) 0,
   m.pix (clampIdx m.rows (r - 1)) (clampIdx m.cols (c + 1)) 0,
   m.pix (clampIdx m.rows r) (clampIdx m.cols (c - 1)) 0,
   m.pix (clampIdx m.rows r) (clampIdx m.cols c) 0,
   m.pix (clampIdx m.rows r) (clampIdx m.cols (c + 1)) 0,
   m.pix (clampIdx m.rows (r + 1)) (clampIdx m.cols (c - 1)) 0,
   m.pix (clampIdx m.rows (r + 1)) (clampIdx m.cols c) 0,
   m.pix (clampIdx m.rows (r + 1)) (clampIdx m.cols (c + 1)) 0]

/-- Modelled from the spec: step 3 of §4.1, `cv2.medianBlur(resized, 3)`
replaces each pixel by the median of its 3x3 neighborhood; it requires a
nonempty single-channel input. -/
def medianBlur3 (m : Mat) : Option Mat :=
  if m.channels = 1 ∧ 0 < m.rows ∧ 0 < m.cols then
    some { m with pix := fun r c _ => (sortNat (window3 m r c)).getD 4 0 }
  else none

/-- Mean intensity over the `b t` x `b t` neighborhood of a pixel, borders
replicated.  Abstracts the Gaussian weighting of the spec's step 4 to the
uniform window mean; the block geometry is exact. -/
def blockMean (b : ℕ) (m : Mat) (r c : ℕ) : ℕ :=
  (((List.range b).map (fun dr =>
      ((List.range b).map (fun dc =>
        m.pix (clampIdx m.rows (r + dr - b / 2)) (clampIdx m.cols (c + dc - b / 2)) 0)).sum)).sum)
    / (b * b)

/-- Modelled from the spec: step 4 of §4.1,
`cv2.adaptiveThreshold(blurred, 255, ADAPTIVE_THRESH_GAUSSIAN_C, THRESH_BINARY, 13, 2)`:
each pixel is compared against its local neighborhood mean minus the
constant `c`; it requires a nonempty single-channel input and an odd
block size greater than 1. -/
def adaptiveThresholdGauss (b c : ℕ) (m : Mat) : Option Mat :=
  if m.channels = 1 ∧ b % 2 = 1 ∧ 1 < b ∧ 0 < m.rows ∧ 0 < m.cols then
    some { m with pix := fun r col _ => if blockMean b m r col - c < m.pix r col 0 then 255 else 0 }
  else none

/-- Modelled from the spec: step 5 of §4.1, `cv2.bitwise_not` inverts
polarity; it is total. -/
def bitwiseNot (m : Mat) : Mat :=
  { m with pix := fun r c k => 255 - m.pix r c k }

/-- The pure transform chain of `preprocess_image` (lines 67-87): the
`None`/zero-area guard followed by the five enhancement steps. -/
def enhanceCore (roi : Option Mat) : Option Mat :=
  match roi with
  | none => none
  | some m =>
    if m.size = 0 then none
    else
      (cvtColorGray m).bind fun g =>
        (resize25 g).bind fun rz =>
          (medianBlur3 rz).bind fun bl =>
            (adaptiveThresholdGauss 13 2 bl).map bitwiseNot

/-! ## The debug sink and the full enhancer (src/main.py lines 37, 89-95) -/

/-- The sampling state: the last debug-write timestamp
(`self.last_debug_time`, a wall-clock time) plus an event counter for
writes of the `debug_roi.png` file, instrumenting `cv2.imwrite`. -/
structure DebugState where
  lastDebugTime : ℚ
  writes : ℕ
deriving DecidableEq

/-- `__init__` (line 37): `self.last_debug_time = 0`, and no debug image
has been written yet. -/
def initialDebugState : DebugState := { lastDebugTime := 0, writes := 0 }

/-- Embeds lines 90-93: write the debug image and move the timestamp to
the current time exactly when more than 5 time units have passed since
the last write; otherwise do nothing.  Returns (wrote?, new timestamp). -/
def debugSinkStep (t last : ℚ) : Bool × ℚ :=
  if t - last > 5 then (true, t) else (false, last)

/-- Embeds `CoordinateTracker.preprocess_image` (lines 63-95) in full:
the pure enhancement chain plus the embedded throttled debug write,
with the mutable timestamp threaded explicitly and `t` the value of
`time.time()`. -/
def preprocess_image (roi : Option Mat) (t : ℚ) (st : DebugState) :
    Option Mat × DebugState :=
  match enhanceCore roi with
  | none => (none, st)
  | some img =>
    let s := debugSinkStep t st.lastDebugTime
    (some img, { lastDebugTime := s.2, writes := if s.1 then st.writes + 1 else st.writes })

/-- A concrete nonempty valid 3-channel image, for witnesses. -/
def testRoi : Mat := { rows := 2, cols := 2, channels := 3, pix := fun _ _ _ => 7 }

/-- A concrete zero-area image (an out-of-frame crop), for witnesses. -/
def emptyRoi : Mat := { rows := 0, cols := 17, channels := 3, pix := fun _ _ _ => 0 }

/-! ## Startup phase and loop cadence (src/main.py lines 18-19, 97-116, 150-151) -/

/-- The ROI configuration: four fixed offsets (lines 18-19 define the
configured values). -/
structure ROIConfig where
  top : ℤ
  bottom : ℤ
  left : ℤ
  right : ℤ
deriving DecidableEq

/-- The configured offsets: `ROI_TOP, ROI_BOTTOM = 10, 160` and
`ROI_LEFT, ROI_RIGHT = 10, 600`. -/
def configuredROI : ROIConfig := { top := 10, bottom := 160, left := 10, right := 600 }

/-- The capture resolution requested at startup (lines 105-106). -/
def FRAME_WIDTH : ℤ := 1280

/-- The capture resolution requested at startup (lines 105-106). -/
def FRAME_HEIGHT : ℤ := 720

/-- The spec's §3 bounds invariant for a ROI against a frame. -/
def roiBoundsValid (cfg : ROIConfig) (frameHeight frameWidth : ℤ) : Prop :=
  0 ≤ cfg.top ∧ cfg.top < cfg.bottom ∧ cfg.bottom ≤ frameHeight ∧
    0 ≤ cfg.left ∧ cfg.left < cfg.right ∧ cfg.right ≤ frameWidth

instance (cfg : ROIConfig) (h w : ℤ) : Decidable (roiBoundsValid cfg h w) :=
  inferInstanceAs (Decidable (_ ∧ _ ∧ _ ∧ _ ∧ _ ∧ _))

/-- Outcome of the pre-loop phase of `CoordinateTracker.start`. -/
inductive StartupResult where
  | tesseractMissing : StartupResult
  | cameraFailed : StartupResult
  | loopEntered : StartupResult
deriving DecidableEq

/-- Embeds lines 97-116 of `CoordinateTracker.start` up to the loop:
abort when the Tesseract binary is missing (line 98), then abort when
the camera cannot be opened (line 109), then enter the acquisition
loop.  The ROI configuration is passed in to record that the pre-loop
phase never inspects it. -/
def startupPhase (tesseractExists cameraOpened : Bool) (_cfg : ROIConfig) : StartupResult :=
  if !tesseractExists then .tesseractMissing
  else if !cameraOpened then .cameraFailed
  else .loopEntered

/-- Embeds line 151: `time.sleep(max(0.1, 0.5 - elapsed))`, the per-cycle
sleep as a function of the elapsed cycle time. -/
def cycleSleep (elapsed : ℚ) : ℚ := max (1 / 10) (1 / 2 - elapsed)

/-! ## Helper lemmas: the token grammar always parses -/

theorem parseUnsigned_digits {c : Char} {ds : List Char} (hc : c.isDigit = true)
    (hds : ds.all Char.isDigit = true) :
    (parseUnsigned (c :: ds)).isSome = true := by
  have ht : (c :: ds).takeWhile Char.isDigit = c :: ds := by
    rw [List.takeWhile_eq_self_iff]
    intro x hx
    rcases List.mem_cons.mp hx with rfl | hx
    · exact hc
    · exact List.all_eq_true.mp hds x hx
  have hd : (c :: ds).dropWhile Char.isDigit = [] := by
    rw [List.dropWhile_eq_nil_iff]
    intro x hx
    rcases List.mem_cons.mp hx with rfl | hx
    · exact hc
    · exact List.all_eq_true.mp hds x hx
  simp [parseUnsigned, ht, hd]

theorem parseUnsigned_digits_dot {c : Char} {ds fs : List Char} (hc : c.isDigit = true)
    (hds : ds.all Char.isDigit = true) (hfs : fs.all Char.isDigit = true) :
    (parseUnsigned (c :: (ds ++ '.' :: fs))).isSome = true := by
  have hdsm : ∀ x ∈ ds, Char.isDigit x = true := List.all_eq_true.mp hds
  have hfsm : ∀ x ∈ fs, Char.isDigit x = true := List.all_eq_true.mp hfs
  have ht : (c :: (ds ++ '.' :: fs)).takeWhile Char.isDigit = c :: ds := by
    rw [List.takeWhile_cons_of_pos hc, List.takeWhile_append_of_pos hdsm,
      List.takeWhile_cons_of_neg (by decide), List.append_nil]
  have hd : (c :: (ds ++ '.' :: fs)).dropWhile Char.isDigit = '.' :: fs := by
    rw [List.dropWhile_cons_of_pos hc, List.dropWhile_append_of_pos hdsm,
      List.dropWhile_cons_of_neg (by decide)]
  have htf : fs.takeWhile Char.isDigit = fs := List.takeWhile_eq_self_iff.mpr hfsm
  have hdf : fs.dropWhile Char.isDigit = [] := List.dropWhile_eq_nil_iff.mpr hfsm
  simp [parseUnsigned, ht, hd, htf, hdf]

/-- Every token produced by `numPart` starts with a digit and parses as
an unsigned decimal. -/
theorem numPart_spec : ∀ {cs t r : List Char}, numPart cs = some (t, r) →
    ∃ c rest2, t = c :: rest2 ∧ c.isDigit = true ∧ (parseUnsigned t).isSome = true := by
  intro cs t r h
  cases cs with
  | nil => simp [numPart] at h
  | cons c rest =>
    by_cases hc : c.isDigit = true
    · cases hd : rest.dropWhile Char.isDigit with
      | nil =>
        simp only [numPart, if_pos hc, hd, Option.some.injEq, Prod.mk.injEq] at h
        refine ⟨c, rest.takeWhile Char.isDigit, h.1.symm, hc, ?_⟩
        rw [← h.1]
        exact parseUnsigned_digits hc List.all_takeWhile
      | cons d r2 =>
        by_cases hdot : d = '.'
        · subst hdot
          simp only [numPart, if_pos hc, hd, if_true, eq_self_iff_true,
            Option.some.injEq, Prod.mk.injEq] at h
          refine ⟨c, _, h.1.symm, hc, ?_⟩
          rw [← h.1]
          exact parseUnsigned_digits_dot hc List.all_takeWhile List.all_takeWhile
        · simp only [numPart, if_pos hc, hd, if_neg hdot, Option.some.injEq,
            Prod.mk.injEq] at h
          refine ⟨c, _, h.1.symm, hc, ?_⟩
          rw [← h.1]
          exact parseUnsigned_digits hc List.all_takeWhile
    · simp [numPart, hc] at h

/-- Every token produced by `matchNum` contains a digit and parses as a
float. -/
theorem matchNum_token : ∀ {cs t r : List Char}, matchNum cs = some (t, r) →
    (parseFloat t).isSome = true ∧ t.any Char.isDigit = true := by
  intro cs t r h
  cases cs with
  | nil => simp [matchNum] at h
  | cons c rest =>
    by_cases hs : c = '-' ∨ c = '+'
    · simp only [matchNum, if_pos hs, Option.map_eq_some'] at h
      obtain ⟨⟨t0, r0⟩, hnp, hpair⟩ := h
      obtain ⟨c0, rest2, ht0, hc0, hps⟩ := numPart_spec hnp
      have ht : (c :: t0, r0) = (t, r) := hpair
      obtain ⟨ht1, ht2⟩ := Prod.mk.injEq _ _ _ _ ▸ ht
      subst ht1
      have hany : (c :: t0).any Char.isDigit = true := by
        rw [List.any_cons, ht0, List.any_cons, hc0]
        simp
      refine ⟨?_, hany⟩
      rcases hs with hs | hs
      · simp only [parseFloat, if_pos hs, Option.isSome_map']
        exact hps
      · have hne : ¬(c = '-') := by
          subst hs
          decide
        simp only [parseFloat, if_neg hne, if_pos hs]
        exact hps
    · rw [matchNum, if_neg hs] at h
      obtain ⟨c0, rest2, ht0, hc0, hps⟩ := numPart_spec h
      refine ⟨?_, ?_⟩
      · have hm : ¬(c0 = '-') := fun he => by
          rw [he] at hc0
          exact absurd hc0 (by decide)
        have hp : ¬(c0 = '+') := fun he => by
          rw [he] at hc0
          exact absurd hc0 (by decide)
        rw [ht0]
        simp only [parseFloat, if_neg hm, if_neg hp]
        rw [← ht0]
        exact hps
      · rw [ht0, List.any_cons, hc0]
        simp

/-- Every token collected by the scan contains a digit and parses as a
float, whatever the fuel. -/
theorem scanNums_token : ∀ (fuel : ℕ) (l t : List Char), t ∈ scanNums fuel l →
    (parseFloat t).isSome = true ∧ t.any Char.isDigit = true := by
  intro fuel
  induction fuel with
  | zero =>
    intro l t ht
    simp [scanNums] at ht
  | succ n ih =>
    intro l t ht
    cases l with
    | nil => simp [scanNums] at ht
    | cons c cs =>
      rw [scanNums] at ht
      cases hm : matchNum (c :: cs) with
      | none =>
        rw [hm] at ht
        exact ih _ _ ht
      | some p =>
        obtain ⟨t0, r0⟩ := p
        rw [hm] at ht
        rcases List.mem_cons.mp ht with rfl | ht
        · exact matchNum_token hm
        · exact ih _ _ ht

/-- Every token produced by `findNumbers` contains a digit and parses as
a float. -/
theorem findNumbers_token {l t : List Char} (ht : t ∈ findNumbers l) :
    (parseFloat t).isSome = true ∧ t.any Char.isDigit = true :=
  scanNums_token _ _ _ ht

/-! ## Helper lemmas: the enhancement steps succeed on valid input -/

theorem cvtColorGray_some {m : Mat} (h : m.channels = 3) :
    ∃ g, cvtColorGray m = some g ∧ g.channels = 1 ∧ g.rows = m.rows ∧ g.cols = m.cols := by
  rw [cvtColorGray, if_pos h]
  exact ⟨_, rfl, rfl, rfl, rfl⟩

theorem resize25_some {m : Mat} (hr : 0 < m.rows) (hc : 0 < m.cols) :
    ∃ rz, resize25 m = some rz ∧ rz.channels = m.channels ∧ 0 < rz.rows ∧ 0 < rz.cols := by
  rw [resize25, if_pos ⟨hr, hc⟩]
  exact ⟨_, rfl, rfl, Nat.div_pos (by omega) (by omega), Nat.div_pos (by omega) (by omega)⟩

theorem medianBlur3_some {m : Mat} (h : m.channels = 1) (hr : 0 < m.rows) (hc : 0 < m.cols) :
    ∃ bl, medianBlur3 m = some bl ∧ bl.channels = 1 ∧ 0 < bl.rows ∧ 0 < bl.cols := by
  rw [medianBlur3, if_pos ⟨h, hr, hc⟩]
  exact ⟨_, rfl, h, hr, hc⟩

theorem adaptiveThresholdGauss_some {m : Mat} (h : m.channels = 1)
    (hr : 0 < m.rows) (hc : 0 < m.cols) :
    ∃ th, adaptiveThresholdGauss 13 2 m = some th := by
  rw [adaptiveThresholdGauss, if_pos ⟨h, by decide, by decide, hr, hc⟩]
  exact ⟨_, rfl⟩

/-- On a nonempty valid 3-channel image the whole enhancement chain
succeeds, step by step. -/
theorem enhanceCore_some {m : Mat} (hch : m.channels = 3) (hr : 0 < m.rows)
    (hc : 0 < m.cols) :
    ∃ g rz bl th, cvtColorGray m = some g ∧ resize25 g = some rz
      ∧ medianBlur3 rz = some bl ∧ adaptiveThresholdGauss 13 2 bl = some th
      ∧ enhanceCore (some m) = some (bitwiseNot th) := by
  obtain ⟨g, hg, hg1, hgr, hgc⟩ := cvtColorGray_some hch
  obtain ⟨rz, hrz, hrzc, hrzr, hrzl⟩ := resize25_some (hgr ▸ hr) (hgc ▸ hc)
  obtain ⟨bl, hbl, hbl1, hblr, hbll⟩ := medianBlur3_some (hrzc.trans hg1) hrzr hrzl
  obtain ⟨th, hth⟩ := adaptiveThresholdGauss_some hbl1 hblr hbll
  have hsz : ¬(m.size = 0) := by
    rw [Mat.size, hch]
    positivity
  refine ⟨g, rz, bl, th, hg, hrz, hbl, hth, ?_⟩
  rw [enhanceCore]
  rw [if_neg hsz, hg, Option.some_bind, hrz, Option.some_bind, hbl, Option.some_bind,
    hth, Option.map_some']

/-- An element of `replaceChar a b l` is either the replacement `b` or
an untouched element of `l`. -/
theorem mem_replaceChar {x a b : Char} {l : List Char} (h : x ∈ replaceChar a b l) :
    x = b ∨ (x ∈ l ∧ ¬(x = a)) := by
  rw [replaceChar] at h
  obtain ⟨c, hc, he⟩ := List.mem_map.mp h
  by_cases hca : c = a
  · rw [if_pos hca] at he
    exact Or.inl he.symm
  · rw [if_neg hca] at he
    subst he
    exact Or.inr ⟨hc, hca⟩

/-- An element of `removeChar a l` is an element of `l` other than `a`. -/
theorem mem_removeChar {x a : Char} {l : List Char} (h : x ∈ removeChar a l) :
    x ∈ l ∧ ¬(x = a) := by
  rw [removeChar] at h
  have hf := List.mem_filter.mp h
  refine ⟨hf.1, ?_⟩
  simpa using hf.2

/-- When the normalized text contains a colon, the colon split keeps
exactly the colon-free suffix after the last colon. -/
theorem splitLastColon_spec (l : List Char) (h : l.contains ':' = true) :
    ∃ pre, l = pre ++ ':' :: splitLastColon l
      ∧ (splitLastColon l).contains ':' = false := by
  have hmem : ':' ∈ l := by simpa [List.contains] using h
  have hsl : splitLastColon l = (l.reverse.takeWhile (fun c => !(c = ':'))).reverse := by
    rw [splitLastColon, if_pos h]
  have hd : l.reverse.dropWhile (fun c => !(c = ':')) ≠ [] := by
    intro hnil
    have := List.dropWhile_eq_nil_iff.mp hnil ':' (by simpa using hmem)
    simp at this
  obtain ⟨d, dw, hdw⟩ := List.exists_cons_of_ne_nil hd
  have hdcolon : d = ':' := by
    have hh := List.head?_dropWhile_not (fun c => !(c = ':')) l.reverse
    rw [hdw] at hh
    simpa using hh
  subst hdcolon
  have hsplit : l.reverse
      = l.reverse.takeWhile (fun c => !(c = ':')) ++ (':' :: dw) := by
    rw [← hdw, List.takeWhile_append_dropWhile]
  refine ⟨dw.reverse, ?_, ?_⟩
  · rw [hsl]
    calc l = l.reverse.reverse := (List.reverse_reverse l).symm
      _ = (l.reverse.takeWhile (fun c => !(c = ':')) ++ (':' :: dw)).reverse := by
          rw [← hsplit]
      _ = (':' :: dw).reverse
            ++ (l.reverse.takeWhile (fun c => !(c = ':'))).reverse := by
          rw [List.reverse_append]
      _ = dw.reverse ++ ':' :: (l.reverse.takeWhile (fun c => !(c = ':'))).reverse := by
          rw [List.reverse_cons, List.append_assoc]
          rfl
  · have hnot : ':' ∉ splitLastColon l := by
      rw [hsl]
      intro hin
      have hin' : ':' ∈ l.reverse.takeWhile (fun c => !(c = ':')) := by
        simpa using hin
      have := List.mem_takeWhile_imp hin'
      simp at this
    simpa [List.contains] using hnot

/-- The two branches of the extractor, shared by several claims: with
fewer than three tokens the result is `none`; with three or more the
first three tokens all parse and give the result. -/
theorem extract_cases (s : List Char) :
    ((findNumbers (splitLastColon (cleanText s))).length < 3 →
        extract_coordinates s = none)
    ∧ (∀ a b c rest, findNumbers (splitLastColon (cleanText s)) = a :: b :: c :: rest →
        ∃ x y z, parseFloat a = some x ∧ parseFloat b = some y ∧ parseFloat c = some z
          ∧ extract_coordinates s = some (x, y, z)) := by
  constructor
  · intro hlen
    rw [extract_coordinates]
    rcases hl : findNumbers (splitLastColon (cleanText s)) with _ | ⟨a, _ | ⟨b, _ | ⟨c, rest⟩⟩⟩
    · rfl
    · rfl
    · rfl
    · rw [hl] at hlen
      simp at hlen
      omega
  · intro a b c rest hl
    have ha := (findNumbers_token (by rw [hl]; exact List.mem_cons_self _ _)).1
    have hb := (findNumbers_token (l := splitLastColon (cleanText s)) (t := b)
      (by rw [hl]; simp)).1
    have hc := (findNumbers_token (l := splitLastColon (cleanText s)) (t := c)
      (by rw [hl]; simp)).1
    obtain ⟨x, hx⟩ := Option.isSome_iff_exists.mp ha
    obtain ⟨y, hy⟩ := Option.isSome_iff_exists.mp hb
    obtain ⟨z, hz⟩ := Option.isSome_iff_exists.mp hc
    refine ⟨x, y, z, hx, hy, hz, ?_⟩
    rw [extract_coordinates, hl]
    simp [hx, hy, hz]

/-! ## The claims -/

/-- C1: for every recognized-text string, fewer than 3 scanned tokens
means `extract_coordinates` returns `none`; 3 or more means it returns
exactly the first three tokens, in order, parsed as floats, ignoring all
later tokens; in particular `"1, 2"` yields `none` and `"1,2,3,4"`
yields `(1.0, 2.0, 3.0)`. -/
theorem extract_first_three_tokens :
    (∀ s : List Char,
      ((findNumbers (splitLastColon (cleanText s))).length < 3 →
          extract_coordinates s = none)
      ∧ (∀ a b c rest, findNumbers (splitLastColon (cleanText s)) = a :: b :: c :: rest →
          ∃ x y z, parseFloat a = some x ∧ parseFloat b = some y ∧ parseFloat c = some z
            ∧ extract_coordinates s = some (x, y, z)))
    ∧ extract_coordinates "1, 2".toList = none
    ∧ extract_coordinates "1,2,3,4".toList = some (1, 2, 3) :=
  ⟨fun s => extract_cases s, by decide, by decide⟩

/-- C1 witness: a single-token input is rejected through the general
short-token branch. -/
theorem extract_first_three_tokens_witness : extract_coordinates "9".toList = none :=
  (extract_first_three_tokens.1 "9".toList).1 (by decide)

/-- C2: whenever the normalized text contains a colon, extraction
tokenizes only the suffix after the last colon (everything up to and
including that colon is discarded); in particular
`"座標: 12.5, -3.0, 100.0"` yields `(12.5, -3.0, 100.0)`. -/
theorem extract_last_colon_anchor :
    (∀ s : List Char, (cleanText s).contains ':' = true →
      extract_coordinates s
          = (match findNumbers (splitLastColon (cleanText s)) with
            | a :: b :: c :: _ =>
              match parseFloat a, parseFloat b, parseFloat c with
              | some x, some y, some z => some (x, y, z)
              | _, _, _ => none
            | _ => none)
        ∧ ∃ pre, cleanText s = pre ++ ':' :: splitLastColon (cleanText s)
            ∧ (splitLastColon (cleanText s)).contains ':' = false)
    ∧ extract_coordinates "座標: 12.5, -3.0, 100.0".toList = some (25 / 2, -3, 100) := by
  constructor
  · intro s h
    exact ⟨rfl, splitLastColon_spec _ h⟩
  · have h : extract_coordinates "座標: 12.5, -3.0, 100.0".toList
        = some (Rat.divInt 125 10, -3, 100) := by decide
    rw [h]
    norm_num [Rat.divInt_eq_div]

/-- C2 witness: the anchoring property at a concrete colon-bearing
input. -/
theorem extract_last_colon_anchor_witness :
    ∃ pre, cleanText "a:b:7,8,9".toList
        = pre ++ ':' :: splitLastColon (cleanText "a:b:7,8,9".toList)
      ∧ (splitLastColon (cleanText "a:b:7,8,9".toList)).contains ':' = false :=
  (extract_last_colon_anchor.1 "a:b:7,8,9".toList (by decide)).2

/-- C3: normalization applies exactly the fixed substitutions, in source
order, before any colon-based splitting: full-width colon to colon,
semicolon to colon, drop vertical bar, letter I to 1, letter O to 0 (all
after space removal); consequently `"12;O.5, -3, 1OO"` yields
`(0.5, -3.0, 100.0)`. -/
theorem cleanText_substitution_order :
    (∀ s : List Char, cleanText s =
      replaceChar 'O' '0' (replaceChar 'I' '1' (removeChar '|'
        (replaceChar ';' ':' (replaceChar '：' ':' (removeChar ' ' s))))))
    ∧ (∀ s : List Char, extract_coordinates s
        = match findNumbers (splitLastColon (cleanText s)) with
          | a :: b :: c :: _ =>
            match parseFloat a, parseFloat b, parseFloat c with
            | some x, some y, some z => some (x, y, z)
            | _, _, _ => none
          | _ => none)
    ∧ extract_coordinates "12;O.5, -3, 1OO".toList = some (1 / 2, -3, 100) := by
  refine ⟨fun s => rfl, fun s => rfl, ?_⟩
  have h : extract_coordinates "12;O.5, -3, 1OO".toList
      = some (Rat.divInt 5 10, -3, 100) := by decide
  rw [h]
  norm_num [Rat.divInt_eq_div]

/-- C4 counterexample: the claim says the normalized text contains no
whitespace of any kind, but a recognized text with an embedded line
break keeps it: normalization only removes the ASCII space. -/
theorem cleanText_retains_newline :
    (cleanText "12,\n34,56".toList).any Char.isWhitespace = true := by decide

/-- C4 amended: step-1 normalization strips all ASCII space characters
(so the normalized text contains no `' '`), but other whitespace such as
line breaks and tabs is not removed and remains in the text passed to
colon-splitting and tokenization. -/
theorem cleanText_strips_only_spaces (s : List Char) :
    (cleanText s).all (fun c => !(c = ' ')) = true := by
  rw [List.all_eq_true]
  intro x hx
  suffices hne : ¬(x = ' ') by simpa using hne
  intro hsp
  subst hsp
  simp only [cleanText] at hx
  rcases mem_replaceChar hx with h1 | ⟨h1, _⟩
  · exact absurd h1 (by decide)
  rcases mem_replaceChar h1 with h2 | ⟨h2, _⟩
  · exact absurd h2 (by decide)
  have h3 := (mem_removeChar h2).1
  rcases mem_replaceChar h3 with h4 | ⟨h4, _⟩
  · exact absurd h4 (by decide)
  rcases mem_replaceChar h4 with h5 | ⟨h5, _⟩
  · exact absurd h5 (by decide)
  exact (mem_removeChar h5).2 rfl

/-- C10: extraction is total and the float-parse-failure branch is
unreachable: every scanned token contains a digit and parses
successfully as a float, so whenever at least three tokens are found the
result is a triple, and otherwise it is `none`. -/
theorem extract_coordinates_total (s : List Char) :
    (∀ t ∈ findNumbers (splitLastColon (cleanText s)),
        t.any Char.isDigit = true ∧ (parseFloat t).isSome = true)
    ∧ (3 ≤ (findNumbers (splitLastColon (cleanText s))).length →
        (extract_coordinates s).isSome = true)
    ∧ ((findNumbers (splitLastColon (cleanText s))).length < 3 →
        extract_coordinates s = none) := by
  refine ⟨fun t ht => ⟨(findNumbers_token ht).2, (findNumbers_token ht).1⟩, ?_, ?_⟩
  · intro hlen
    rcases hl : findNumbers (splitLastColon (cleanText s)) with _ | ⟨a, _ | ⟨b, _ | ⟨c, rest⟩⟩⟩
    · rw [hl] at hlen
      simp at hlen
    · rw [hl] at hlen
      simp at hlen
    · rw [hl] at hlen
      simp at hlen
    · obtain ⟨x, y, z, hx, hy, hz, he⟩ := (extract_cases s).2 a b c rest hl
      rw [he]
      rfl
  · exact (extract_cases s).1

/-- C10 witness: a three-token input takes the success branch. -/
theorem extract_coordinates_total_witness :
    3 ≤ (findNumbers (splitLastColon (cleanText "1,2,3".toList))).length
    ∧ (extract_coordinates "1,2,3".toList).isSome = true :=
  ⟨by decide, (extract_coordinates_total "1,2,3".toList).2.1 (by decide)⟩

/-- C5: a null or zero-area input yields `no-image` (and no step is
reached); on a nonempty valid 3-channel image every enhancement step
(grayscale, 2.5x cubic upscale, 3x3 median filter, Gaussian adaptive
threshold with block 13 and constant 2, inversion) succeeds and an
enhanced image is returned. -/
theorem preprocess_error_policy :
    (∀ (t : ℚ) (st : DebugState), (preprocess_image none t st).1 = none)
    ∧ (∀ (m : Mat) (t : ℚ) (st : DebugState), m.size = 0 →
        (preprocess_image (some m) t st).1 = none)
    ∧ (∀ (m : Mat) (t : ℚ) (st : DebugState), m.channels = 3 → 0 < m.rows → 0 < m.cols →
        ∃ g rz bl th, cvtColorGray m = some g ∧ resize25 g = some rz
          ∧ medianBlur3 rz = some bl ∧ adaptiveThresholdGauss 13 2 bl = some th
          ∧ (preprocess_image (some m) t st).1 = some (bitwiseNot th)) := by
  refine ⟨fun t st => rfl, ?_, ?_⟩
  · intro m t st h
    rw [preprocess_image]
    rw [show enhanceCore (some m) = none from by rw [enhanceCore, if_pos h]]
  · intro m t st hch hr hc
    obtain ⟨g, rz, bl, th, hg, hrz, hbl, hth, hcore⟩ := enhanceCore_some hch hr hc
    refine ⟨g, rz, bl, th, hg, hrz, hbl, hth, ?_⟩
    rw [preprocess_image, hcore]

/-- C5 witness: the enhancer succeeds end to end on a concrete 2x2
3-channel image, and returns `no-image` on a concrete zero-area one. -/
theorem preprocess_error_policy_witness :
    (∃ g rz bl th, cvtColorGray testRoi = some g ∧ resize25 g = some rz
      ∧ medianBlur3 rz = some bl ∧ adaptiveThresholdGauss 13 2 bl = some th
      ∧ (preprocess_image (some testRoi) 0 initialDebugState).1 = some (bitwiseNot th))
    ∧ (preprocess_image (some emptyRoi) 0 initialDebugState).1 = none :=
  ⟨preprocess_error_policy.2.2 testRoi 0 initialDebugState rfl (by decide) (by decide),
    preprocess_error_policy.2.1 emptyRoi 0 initialDebugState rfl⟩

/-- C6: with the last debug-write timestamp as explicit state
(initialized to 0), an invocation at time `t` writes and moves the
timestamp to `t` exactly when `t` minus the stored timestamp exceeds 5,
and otherwise writes nothing and leaves the timestamp unchanged; hence
two invocations within the throttle interval write exactly once, and an
invocation after the interval elapses writes again. -/
theorem debugSink_throttle :
    (∀ t last : ℚ, ((debugSinkStep t last).1 = true ↔ t - last > 5)
      ∧ ((debugSinkStep t last).1 = true → (debugSinkStep t last).2 = t)
      ∧ ((debugSinkStep t last).1 = false → (debugSinkStep t last).2 = last))
    ∧ (∀ t1 t2 t3 : ℚ,
        t1 - initialDebugState.lastDebugTime > 5 → ¬(t2 - t1 > 5) → t3 - t1 > 5 →
        (debugSinkStep t1 initialDebugState.lastDebugTime).1 = true
        ∧ (debugSinkStep t1 initialDebugState.lastDebugTime).2 = t1
        ∧ (debugSinkStep t2 t1).1 = false
        ∧ (debugSinkStep t2 t1).2 = t1
        ∧ (debugSinkStep t3 t1).1 = true) := by
  constructor
  · intro t last
    by_cases h : t - last > 5
    · simp [debugSinkStep, h]
    · simp [debugSinkStep, h]
  · intro t1 t2 t3 h1 h2 h3
    have h1' : (5 : ℚ) < t1 := by
      rw [initialDebugState] at h1
      simpa using h1
    refine ⟨?_, ?_, ?_, ?_, ?_⟩ <;>
      simp [debugSinkStep, initialDebugState, h1', h2, h3]

/-- C6 witness: the throttle scenario at times 6, 8, 20 with a 5-unit
interval. -/
theorem debugSink_throttle_witness :
    (debugSinkStep 6 initialDebugState.lastDebugTime).1 = true
    ∧ (debugSinkStep 8 6).1 = false
    ∧ (debugSinkStep 20 6).1 = true := by
  have h := debugSink_throttle.2 6 8 20 (by norm_num [initialDebugState])
    (by norm_num) (by norm_num)
  exact ⟨h.1, h.2.2.1, h.2.2.2.2⟩

/-- C7 counterexample: a cycle with elapsed time 1 (exceeding the 0.5
target) sleeps the 0.1 floor, not 0 — the next cycle does not start
immediately. -/
theorem cycleSleep_slow_not_immediate :
    cycleSleep 1 = 1 / 10 ∧ ¬(cycleSleep 1 = 0) := by
  have h : cycleSleep 1 = 1 / 10 := by
    rw [cycleSleep, max_eq_left (by norm_num)]
  exact ⟨h, by rw [h]; norm_num⟩

/-- C7 amended: the loop sleeps `max(0.1, 0.5 − elapsed)`; for cycles
faster than the target the inter-cycle period is at least the floor,
at least the target, and below 0.6; for a cycle slower than the target
the loop sleeps exactly the 0.1 floor (never a negative sleep, but not
zero either). -/
theorem cycleSleep_cadence (e : ℚ) (he : 0 ≤ e) :
    cycleSleep e = max (1 / 10) (1 / 2 - e)
    ∧ 0 < cycleSleep e
    ∧ (e < 1 / 2 →
        1 / 10 ≤ e + cycleSleep e ∧ 1 / 2 ≤ e + cycleSleep e ∧ e + cycleSleep e < 3 / 5)
    ∧ (1 / 2 < e → cycleSleep e = 1 / 10) := by
  refine ⟨rfl, ?_, ?_, ?_⟩
  · exact lt_of_lt_of_le (by norm_num) (le_max_left _ _)
  · intro hfast
    refine ⟨?_, ?_, ?_⟩
    · have := le_max_left (1 / 10 : ℚ) (1 / 2 - e)
      rw [cycleSleep]
      linarith
    · have := le_max_right (1 / 10 : ℚ) (1 / 2 - e)
      rw [cycleSleep]
      linarith
    · rcases le_total (1 / 2 - e) (1 / 10 : ℚ) with h | h
      · rw [cycleSleep, max_eq_left h]
        linarith
      · rw [cycleSleep, max_eq_right h]
        linarith
  · intro hslow
    rw [cycleSleep, max_eq_left (by linarith)]

/-- C7 amended witness: a fast cycle with elapsed 1/4 sleeps to at least
the target. -/
theorem cycleSleep_cadence_witness :
    0 < cycleSleep (1 / 4) ∧ 1 / 2 ≤ 1 / 4 + cycleSleep (1 / 4) := by
  have h := cycleSleep_cadence (1 / 4) (by norm_num)
  exact ⟨h.2.1, (h.2.2.1 (by norm_num)).2.1⟩

/-- C8 counterexample: a ROI configuration violating the bounds
invariant (top = 160 above bottom = 10) does not make startup fail: with
the OCR binary present and the camera opened, the loop is entered
anyway. -/
theorem startup_accepts_invalid_roi :
    ¬ roiBoundsValid { top := 160, bottom := 10, left := 10, right := 600 }
        FRAME_HEIGHT FRAME_WIDTH
    ∧ startupPhase true true { top := 160, bottom := 10, left := 10, right := 600 }
        = .loopEntered :=
  ⟨by decide, rfl⟩

/-- C8 amended: the pre-loop phase of `start` validates only the
Tesseract path and the camera handle, never the ROI bounds, so invalid
bounds would reach the per-cycle crop step; the statically configured
offsets (10, 160, 10, 600 against a 720x1280 frame) do satisfy the
invariant. -/
theorem startup_checks_only_tesseract_camera (cfg : ROIConfig) :
    startupPhase true true cfg = .loopEntered
    ∧ (∀ cam, startupPhase false cam cfg = .tesseractMissing)
    ∧ startupPhase true false cfg = .cameraFailed
    ∧ roiBoundsValid configuredROI FRAME_HEIGHT FRAME_WIDTH :=
  ⟨rfl, fun _ => rfl, rfl, by decide⟩

/-- C9 counterexample: the enhancer is not side-effect free: run on a
valid image at time 10 from the initial sampling state, it writes the
debug image (write count becomes 1) and moves the stored timestamp to
10. -/
theorem preprocess_writes_debug_state :
    (preprocess_image (some testRoi) 10 initialDebugState).2.writes = 1
    ∧ (preprocess_image (some testRoi) 10 initialDebugState).2.lastDebugTime = 10 := by
  have h5 : (enhanceCore (some testRoi)).isSome = true := by decide
  obtain ⟨img, h⟩ := Option.isSome_iff_exists.mp h5
  have hc : (5 : ℚ) < 10 := by norm_num
  constructor <;>
    simp [preprocess_image, h, debugSinkStep, initialDebugState, hc]

/-- C9 amended: the throttled debug write lives inside the enhancer
itself, not in the caller: when the enhancement chain produces an image
and the throttle interval has elapsed, `preprocess_image` writes the
debug image and updates the timestamp; when the interval has not
elapsed, or the chain produces nothing, the state is unchanged. -/
theorem preprocess_debug_inside_enhancer (roi : Option Mat) (t : ℚ) (st : DebugState) :
    (enhanceCore roi = none → preprocess_image roi t st = (none, st))
    ∧ (∀ img, enhanceCore roi = some img →
        (t - st.lastDebugTime > 5 →
          preprocess_image roi t st
            = (some img, { lastDebugTime := t, writes := st.writes + 1 }))
        ∧ (¬(t - st.lastDebugTime > 5) →
          preprocess_image roi t st = (some img, st))) := by
  constructor
  · intro h
    rw [preprocess_image, h]
  · intro img h
    constructor
    · intro hc
      rw [preprocess_image, h]
      simp [debugSinkStep, if_pos hc]
    · intro hc
      rw [preprocess_image, h]
      simp [debugSinkStep, if_neg hc]

/-- C9 amended witness: a missing image leaves the state unchanged, and
a valid image before the interval elapses leaves it unchanged too. -/
theorem preprocess_debug_inside_enhancer_witness :
    preprocess_image none 0 initialDebugState = (none, initialDebugState)
    ∧ (preprocess_image (some testRoi) 0 initialDebugState).2 = initialDebugState := by
  refine ⟨(preprocess_debug_inside_enhancer none 0 initialDebugState).1 rfl, ?_⟩
  have h5 : (enhanceCore (some testRoi)).isSome = true := by decide
  obtain ⟨img, h⟩ := Option.isSome_iff_exists.mp h5
  rw [((preprocess_debug_inside_enhancer (some testRoi) 0 initialDebugState).2 img h).2
    (by norm_num [initialDebugState])]

end CoordTracker
